import Mathlib

namespace SvgMap

/-- Strings of the Python source are modelled as lists of characters. -/
abbrev Str := List Char

/-- Turn a Lean string literal into the character-list representation. -/
def chars (s : String) : Str :=
  s.data

/-- Whitespace predicate used by `str.strip()` (space, tab, CR, LF). -/
def isWS (c : Char) : Bool :=
  c.isWhitespace

/-- Python `str.strip()`: drop whitespace from both ends. -/
def trim (l : Str) : Str :=
  ((l.dropWhile isWS).reverse.dropWhile isWS).reverse

example : trim (chars ("  a b ")) = chars ("a b") := by decide

/-- Python `style_str.split(";")`: split on every `;`, keeping empty segments.
Never returns the empty list (splitting the empty string gives `[""]`). -/
def splitOnSemi : Str → List Str
  | [] => [[]]
  | c :: cs =>
    match splitOnSemi cs with
    | [] => [[]]
    | s :: ss => if c = ';' then [] :: s :: ss else (c :: s) :: ss

/-- Python `declaration.split(":", 1)` when `":" in declaration`: split at the
first colon; `none` models the case where no colon occurs. -/
def splitFirstColon : Str → Option (Str × Str)
  | [] => none
  | c :: cs =>
    if c = ':' then some ([], cs)
    else
      match splitFirstColon cs with
      | none => none
      | some (p, v) => some (c :: p, v)

/-- Python dict assignment `d[k] = v` on an insertion-ordered association
list: an existing key keeps its position and gets the new value, a new key is
appended at the end. -/
def dictInsert {α : Type} (k : Str) (v : α) : List (Str × α) → List (Str × α)
  | [] => [(k, v)]
  | kv :: rest => if kv.1 = k then (k, v) :: rest else kv :: dictInsert k v rest

/-- Python dict lookup `k in d` / `d[k]` on an association list. -/
def alookup {α : Type} (k : Str) : List (Str × α) → Option α
  | [] => none
  | kv :: rest => if kv.1 = k then some kv.2 else alookup k rest

/-- `parse_style` (color-svg-map.py lines 88-108): split the style string on
`;`, strip each declaration, keep only declarations containing `:`, split each
at the first `:` and strip both sides; later duplicate properties overwrite
earlier ones in place (Python dict semantics). -/
def parse_style (style_str : Str) : List (Str × Str) :=
  if style_str = [] then []
  else
    (splitOnSemi style_str).foldl
      (fun styles declaration =>
        let d := trim declaration
        match splitFirstColon d with
        | some pv => dictInsert (trim pv.1) (trim pv.2) styles
        | none => styles)
      []

/-- `style_to_string` (lines 111-113): `";".join(f"{k}:{v}" ...)`. -/
def style_to_string : List (Str × Str) → Str
  | [] => []
  | [kv] => kv.1 ++ ':' :: kv.2
  | kv :: rest => kv.1 ++ ':' :: kv.2 ++ ';' :: style_to_string rest

/-- The slice of an SVG path element the colorer reads and writes: its `id`,
`class`, `fill` and `style` attributes (`none` = attribute absent). -/
structure Elem where
  idAttr : Option Str
  classAttr : Option Str
  fillAttr : Option Str
  styleAttr : Option Str
deriving DecidableEq, Repr

/-- Python truthiness of `element.get("style")`: present and non-empty. -/
def truthy : Option Str → Bool
  | none => false
  | some s => !s.isEmpty

/-- The CSS property name `fill`. -/
def fillKey : Str := chars ("fill")

/-- `set_fill_color` (lines 116-134): if the element carries a truthy `style`
attribute, parse it, overwrite its `fill` property and serialize back;
otherwise set the bare `fill` attribute.  The bare `fill` attribute is never
removed in the style branch. -/
def set_fill_color (element : Elem) (color : Str) : Elem :=
  match element.styleAttr with
  | some style_attr =>
    if style_attr ≠ [] then
      { element with
        styleAttr := some (style_to_string (dictInsert fillKey color (parse_style style_attr))) }
    else { element with fillAttr := some color }
  | none => { element with fillAttr := some color }

/-- Does the style map contain property `k`? -/
def hasKey (k : Str) (m : List (Str × Str)) : Bool :=
  m.any (fun kv => kv.1 = k)

/-- The forbidden state of claim C1: a bare `fill` attribute together with a
`style` attribute whose parsed map contains a `fill` property. -/
def fillConflict (e : Elem) : Bool :=
  e.fillAttr.isSome &&
    (match e.styleAttr with
     | some s => hasKey fillKey (parse_style s)
     | none => false)

example :
    set_fill_color ⟨none, none, none, some (chars ("stroke:#000"))⟩ (chars ("#111")) =
      ⟨none, none, none, some (chars ("stroke:#000;fill:#111"))⟩ := by decide

example :
    fillConflict
      (set_fill_color ⟨none, none, some (chars ("#aaa")), some (chars ("stroke:#000"))⟩
        (chars ("#111"))) = true := by decide

/-- One entry of the Region Catalog: `{"color": hex, "label": str}`. -/
structure Info where
  color : Str
  label : Str
deriving DecidableEq, Repr

/-- The Region Catalog as built by `parse_data`: an insertion-ordered mapping
from region code to color/label. -/
abbrev Catalog := List (Str × Info)

/-- `MULTI_PATH_CLASSES` (lines 35-45): code → country-name class. -/
def MULTI_PATH_CLASSES : List (Str × Str) :=
  [ (chars ("AO"), chars ("Angola")),
    (chars ("AR"), chars ("Argentina")),
    (chars ("AU"), chars ("Australia")),
    (chars ("AZ"), chars ("Azerbaijan")),
    (chars ("CA"), chars ("Canada")),
    (chars ("CN"), chars ("China")),
    (chars ("DK"), chars ("Denmark")),
    (chars ("GR"), chars ("Greece")),
    (chars ("GB"), chars ("United Kingdom")) ]

/-- `class_to_code = {v: k for k, v in MULTI_PATH_CLASSES.items()}` (line 283). -/
def class_to_code : List (Str × Str) :=
  MULTI_PATH_CLASSES.map (fun kv => (kv.2, kv.1))

/-- Python substring test `pat in s`. -/
def containsSub (pat : Str) : Str → Bool
  | [] => pat.isEmpty
  | c :: cs => pat.isPrefixOf (c :: cs) || containsSub pat cs

/-- The substring `"fill:"` tested at line 322. -/
def fillColonKey : Str := chars ("fill:")

/-- `matched_codes.add code`: sets are modelled as duplicate-free lists. -/
def insertIfAbsent (k : Str) (l : List Str) : List Str :=
  if k ∈ l then l else l ++ [k]

/-- The counters and matched-code set accumulated by the walk
(lines 277-280). -/
structure WalkSt where
  colored : Nat
  multi : Nat
  matched : List Str
deriving DecidableEq, Repr

/-- The default-fill branch of the walk (lines 316-323): apply the default
color only when the `fill` attribute is absent or empty and the substring
`"fill:"` does not occur anywhere in the `style` attribute string. -/
def defaultBranch (path : Elem) (st : WalkSt) (default_color : Str) : Elem × WalkSt :=
  let current_fill := path.fillAttr.getD []
  let current_style := path.styleAttr.getD []
  if current_fill = [] && !containsSub fillColonKey current_style then
    (set_fill_color path default_color, st)
  else (path, st)

/-- One iteration of the coloring loop (lines 291-323): id lookup first, then
class-alias lookup (incrementing the multi-path counter at resolution time),
then the Python-truthiness test `if color:` deciding between coloring and the
default branch. -/
def color_step (data : Catalog) (default_color : Str) (st : WalkSt) (path : Elem) :
    Elem × WalkSt :=
  let path_id := trim (path.idAttr.getD [])
  let path_class := trim (path.classAttr.getD [])
  let r : Option (Str × Str) × Nat :=
    match alookup path_id data with
    | some info => (some (info.color, path_id), 0)
    | none =>
      match alookup path_class class_to_code with
      | some code =>
        match alookup code data with
        | some info => (some (info.color, code), 1)
        | none => (none, 0)
      | none => (none, 0)
  let st1 : WalkSt := { st with multi := st.multi + r.2 }
  match r.1 with
  | some cm =>
    if cm.1 ≠ [] then
      (set_fill_color path cm.1,
       { st1 with colored := st1.colored + 1, matched := insertIfAbsent cm.2 st1.matched })
    else defaultBranch path st1 default_color
  | none => defaultBranch path st1 default_color

/-- The whole coloring loop over the document's path nodes, in document
order. -/
def colorPaths (data : Catalog) (default_color : Str) : List Elem → WalkSt → List Elem × WalkSt
  | [], st => ([], st)
  | p :: ps, st =>
    let r1 := color_step data default_color st p
    let r2 := colorPaths data default_color ps r1.2
    (r1.1 :: r2.1, r2.2)

/-- Python string comparison `a <= b`: lexicographic by code point. -/
def lexLe : Str → Str → Bool
  | [], _ => true
  | _ :: _, [] => false
  | a :: as_, b :: bs => if a < b then true else if b < a then false else lexLe as_ bs

/-- `lexLe` as a relation, for `List.insertionSort` and `List.Sorted`. -/
def lexLeP (a b : Str) : Prop := lexLe a b = true

instance : DecidableRel lexLeP := fun a b => instDecidableEqBool (lexLe a b) true

/-- The statistics dict returned by `color_map` (lines 340-345). -/
structure ColorStats where
  colored : Nat
  multi_path : Nat
  unmatched : Nat
  unmatched_codes : List Str
deriving DecidableEq, Repr

/-- `set(data.keys()) - matched_codes` as a duplicate-free list. -/
def unmatchedSet (data : Catalog) (matched : List Str) : List Str :=
  ((data.map Prod.fst).dedup).filter (fun k => decide (k ∉ matched))

/-- `sorted` on region codes: Python's stable sort, modelled by insertion
sort over the lexicographic order. -/
def sortCodes (l : List Str) : List Str :=
  List.insertionSort lexLeP l

/-- Lines 326 and 340-345: the statistics assembled after the walk. -/
def mkStats (data : Catalog) (st : WalkSt) : ColorStats :=
  let unmatched_codes := unmatchedSet data st.matched
  { colored := st.colored
    multi_path := st.multi
    unmatched := unmatched_codes.length
    unmatched_codes := sortCodes unmatched_codes }

/-- The coloring walk plus statistics assembly: the in-memory behavior of
`color_map` after input loading (lines 277-345), on the document's path
nodes. -/
def color_map_walk (data : Catalog) (default_color : Str) (paths : List Elem) :
    List Elem × ColorStats :=
  let r := colorPaths data default_color paths ⟨0, 0, []⟩
  (r.1, mkStats data r.2)

example :
    (color_map_walk [(chars ("US"), ⟨chars ("#3b82f6"), chars ("US")⟩)] (chars ("#ececec"))
      [⟨some (chars ("US")), none, none, none⟩, ⟨some (chars ("FR")), none, none, none⟩]).2 =
    ⟨1, 0, 0, []⟩ := by decide

example :
    (color_map_walk [(chars ("CA"), ⟨chars ("#111"), chars ("CA")⟩)] (chars ("#ececec"))
      [⟨none, some (chars ("Canada")), none, none⟩]).2 =
    ⟨1, 1, 0, []⟩ := by decide

/-- The color → label dict of `add_legend` (lines 148-154): iterate the
catalog in insertion order and keep the first-encountered label of each
distinct color. -/
def color_labels_aux (acc : List (Str × Str)) : Catalog → List (Str × Str)
  | [] => acc
  | kv :: rest =>
    color_labels_aux
      (if kv.2.color ∈ acc.map Prod.fst then acc else acc ++ [(kv.2.color, kv.2.label)])
      rest

/-- `color_labels` as built by `add_legend` from the catalog. -/
def color_labels (data : Catalog) : List (Str × Str) :=
  color_labels_aux [] data

/-- Ordering of legend rows: by label (line 167,
`sorted(color_labels.items(), key=lambda x: x[1])`). -/
def labelLeP (a b : Str × Str) : Prop := lexLe a.2 b.2 = true

instance : DecidableRel labelLeP := fun a b => instDecidableEqBool (lexLe a.2 b.2) true

/-- The (color, label) rows of the legend, in the order `add_legend` emits
them: deduplicated by color, then stably sorted by label. -/
def legend_rows (data : Catalog) : List (Str × Str) :=
  List.insertionSort labelLeP (color_labels data)

/-- The label of the first catalog entry (in insertion order) carrying a given
color; used to state claim C7. -/
def firstLabel (data : Catalog) (c : Str) : Option Str :=
  (data.find? (fun kv => kv.2.color = c)).map (fun kv => kv.2.label)

/-- The root element's attributes read by `get_viewbox` (lines 212-228). -/
structure RootElem where
  viewBox : Option Str
  width : Option Str
  height : Option Str
deriving DecidableEq, Repr

/-- Helper of `splitWS`, accumulating the current word reversed. -/
def splitWSAux (cur : Str) : Str → List Str
  | [] => if cur = [] then [] else [cur.reverse]
  | c :: cs =>
    if isWS c then
      if cur = [] then splitWSAux [] cs else cur.reverse :: splitWSAux [] cs
    else splitWSAux (c :: cur) cs

/-- Python `str.split()` with no argument: split on whitespace runs, dropping
empty words. -/
def splitWS (l : Str) : List Str :=
  splitWSAux [] l

example : splitWS (chars (" 0 0  800 600 ")) =
    [chars ("0"), chars ("0"), chars ("800"), chars ("600")] := by decide

/-- Python `s.replace("px", "")`: remove every (non-overlapping, leftmost)
occurrence of `px`, not only a suffix. -/
def replacePx : Str → Str
  | 'p' :: 'x' :: rest => replacePx rest
  | c :: rest => c :: replacePx rest
  | [] => []

example : replacePx (chars ("80px0")) = chars ("800") := by decide

/-- Digit-string value, `∑ 10*acc + digit`. -/
def natVal (ds : Str) : Nat :=
  ds.foldl (fun a c => 10 * a + (c.toNat - 48)) 0

/-- The components of a plain decimal numeral: sign, integer digits value,
fraction digits value and fraction length. -/
structure DecScan where
  neg : Bool
  intval : Nat
  fracval : Nat
  fraclen : Nat
deriving DecidableEq, Repr

/-- Scanner half of `float(s)`: accept an optional sign, digits, and an
optional `.` with digits (at least one digit overall); `none` models the
`ValueError` raised on anything else. -/
def decScan (s : Str) : Option DecScan :=
  let sr : Bool × Str :=
    match s with
    | '-' :: r => (true, r)
    | '+' :: r => (false, r)
    | r => (false, r)
  let intPart := sr.2.takeWhile (fun c => c.isDigit)
  let rest := sr.2.dropWhile (fun c => c.isDigit)
  match rest with
  | [] => if intPart = [] then none else some ⟨sr.1, natVal intPart, 0, 0⟩
  | '.' :: frac =>
    if frac.all (fun c => c.isDigit) && (!intPart.isEmpty || !frac.isEmpty) then
      some ⟨sr.1, natVal intPart, natVal frac, frac.length⟩
    else none
  | _ => none

/-- The exact rational value of a scanned decimal numeral. -/
def ratOfScan (d : DecScan) : ℚ :=
  (if d.neg then -1 else 1) * ((d.intval : ℚ) + (d.fracval : ℚ) / (10 : ℚ) ^ d.fraclen)

/-- Python `float(s)` on plain decimal numerals.  The numeric value is
modelled exactly in `ℚ`; binary floating-point rounding, exponent notation and
`inf`/`nan` are outside every claim checked here. -/
def parseDec (s : Str) : Option ℚ :=
  (decScan s).map ratOfScan

/-- `get_viewbox` (lines 212-228): a truthy `viewBox` attribute that splits
into exactly four words is converted with `float`; otherwise the
`width`/`height` attributes (defaults `"800"`/`"600"`) are used with every
occurrence of `px` removed.  A failing `float` conversion raises, modelled as
`none`; it does not fall back. -/
def get_viewbox (root : RootElem) : Option (ℚ × ℚ × ℚ × ℚ) :=
  let viaViewBox : Option (List Str) :=
    match root.viewBox with
    | some s =>
      if s ≠ [] then
        let parts := splitWS s
        if parts.length = 4 then some parts else none
      else none
    | none => none
  match viaViewBox with
  | some parts =>
    match parts.map parseDec with
    | [some a, some b, some c, some d] => some (a, b, c, d)
    | _ => none
  | none =>
    match parseDec (replacePx (root.width.getD (chars ("800")))),
        parseDec (replacePx (root.height.getD (chars ("600")))) with
    | some w, some h => some (0, 0, w, h)
    | _, _ => none

/-- `l` with one trailing `px` removed when present (and nothing else). -/
def stripPxSuffix (l : Str) : Str :=
  if (chars ("px")).isSuffixOf l then l.take (l.length - 2) else l

/-- Modelled from the spec's words for the C8 comparison: identical to
`get_viewbox` except that only a `px` *suffix* of `width`/`height` is
stripped, as the sentence "pixel-unit suffix stripped" prescribes. -/
def get_viewbox_spec (root : RootElem) : Option (ℚ × ℚ × ℚ × ℚ) :=
  let viaViewBox : Option (List Str) :=
    match root.viewBox with
    | some s =>
      if s ≠ [] then
        let parts := splitWS s
        if parts.length = 4 then some parts else none
      else none
    | none => none
  match viaViewBox with
  | some parts =>
    match parts.map parseDec with
    | [some a, some b, some c, some d] => some (a, b, c, d)
    | _ => none
  | none =>
    match parseDec (stripPxSuffix (root.width.getD (chars ("800")))),
        parseDec (stripPxSuffix (root.height.getD (chars ("600")))) with
    | some w, some h => some (0, 0, w, h)
    | _, _ => none

/-- A decoded JSON value as `json.load` hands it to `parse_data`.  Numbers
carry an integer payload: only the value *category* matters to any claim. -/
inductive JValue where
  | str (s : Str)
  | obj (fields : List (Str × JValue))
  | num (n : Int)
  | boolean (b : Bool)
  | arr (elems : List JValue)
  | null

/-- Does `isinstance(value, (str, dict))` hold? -/
def strOrDict : JValue → Bool
  | .str _ => true
  | .obj _ => true
  | _ => false

/-- Python `str()` of a JSON scalar, used where a non-string color/label
value would later be coerced to text.  Containers are abstracted to the empty
string: no claim involves a catalog whose color or label is itself a list or
dict. -/
def jToStr : JValue → Str
  | .str s => s
  | .boolean true => chars ("True")
  | .boolean false => chars ("False")
  | .null => chars ("None")
  | .num n => if n < 0 then '-' :: Nat.toDigits 10 n.natAbs else Nat.toDigits 10 n.natAbs
  | .obj _ => []
  | .arr _ => []

/-- The default color `"#ececec"` (line 68 and the CLI default). -/
def defaultHex : Str := chars ("#ececec")

/-- `"color"` / `"label"` field names of the extended JSON format. -/
def colorKey : Str := chars ("color")

/-- See `colorKey`. -/
def labelKey : Str := chars ("label")

/-- JSON branch of `parse_data` (lines 58-70): a string value becomes
`{"color": value, "label": code}`; a dict value becomes
`{"color": value.get("color", "#ececec"), "label": value.get("label", code)}`;
every other value is skipped. -/
def parse_data_json (entries : List (Str × JValue)) : Catalog :=
  entries.foldl
    (fun result e =>
      match e.2 with
      | .str s => dictInsert e.1 ⟨s, e.1⟩ result
      | .obj fields =>
        dictInsert e.1
          ⟨jToStr ((alookup colorKey fields).getD (.str defaultHex)),
           jToStr ((alookup labelKey fields).getD (.str e.1))⟩
          result
      | _ => result)
    []

/-- One row as `csv.DictReader` yields it: the three columns the script
reads, `none` when the column is missing. -/
structure CsvRow where
  code : Option Str
  color : Option Str
  label : Option Str
deriving DecidableEq, Repr

/-- CSV branch of `parse_data` (lines 72-80): strip the three fields (with
defaults `""`, `"#ececec"`, the code) and keep rows with a non-empty code. -/
def parse_data_csv (rows : List CsvRow) : Catalog :=
  rows.foldl
    (fun result row =>
      let code := trim (row.code.getD [])
      let color := trim (row.color.getD defaultHex)
      let label := trim (row.label.getD code)
      if code ≠ [] then dictInsert code ⟨color, label⟩ result else result)
    []

/-- The recognized data-file extensions (lowercased by line 55). -/
def jsonExt : Str := chars (".json")

/-- See `jsonExt`. -/
def csvExt : Str := chars (".csv")

/-- `parse_data` (lines 48-85): dispatch on the lowercased extension; an
unrecognized extension raises `ValueError` (line 83), modelled as `.error`.
The file contents each branch would decode are passed in, since file I/O and
JSON/CSV decoding are collaborators outside the engine. -/
def parse_data (ext : Str) (jsonContent : List (Str × JValue)) (csvContent : List CsvRow) :
    Except Str Catalog :=
  if ext = jsonExt then .ok (parse_data_json jsonContent)
  else if ext = csvExt then .ok (parse_data_csv csvContent)
  else .error (chars ("Unsupported data format: ") ++ ext ++ chars (". Use .json or .csv"))

/-- Everything `color_map` consumes, with file presence abstracted to
booleans and file contents to their decoded forms. -/
structure RunInput where
  input_exists : Bool
  data_exists : Bool
  data_ext : Str
  json_content : List (Str × JValue)
  csv_content : List CsvRow
  svg_paths : List Elem
  default_color : Str

/-- `color_map` (lines 231-345) as a run: validate the two paths (lines
258-262, raising `FileNotFoundError`), parse the data file (line 265), run
the coloring walk, and only then write the output (line 337).  `.ok` carries
the path nodes of the document written to the output file together with the
returned statistics; `.error` models an exception raised before the write, so
no output file exists.  Legend/title synthesis appends non-path nodes after
the walk and is modelled separately (`legend_rows`); it affects neither the
statistics nor the path nodes. -/
def color_map (inp : RunInput) : Except Str (List Elem × ColorStats) :=
  if inp.input_exists = false then .error (chars ("Input SVG file not found"))
  else if inp.data_exists = false then .error (chars ("Data file not found"))
  else
    match parse_data inp.data_ext inp.json_content inp.csv_content with
    | .error e => .error e
    | .ok data => .ok (color_map_walk data inp.default_color inp.svg_paths)

/-- A path node resolves to no region code: its id misses the catalog and its
class either misses the alias table or aliases a code outside the catalog. -/
def noResolve (data : Catalog) (e : Elem) : Bool :=
  (alookup (trim (e.idAttr.getD [])) data).isNone &&
    (match alookup (trim (e.classAttr.getD [])) class_to_code with
     | some code => (alookup code data).isNone
     | none => true)

/-- A path node resolves through the class-alias table: its id misses the
catalog, its class is an alias-table value, and the aliased code is in the
catalog. -/
def viaClassPred (data : Catalog) (e : Elem) : Bool :=
  (alookup (trim (e.idAttr.getD [])) data).isNone &&
    (match alookup (trim (e.classAttr.getD [])) class_to_code with
     | some code => (alookup code data).isSome
     | none => false)

/-- Claim C1, counterexample: an element that already carries both a bare
`fill` attribute and a (fill-free) `style` attribute still carries the bare
`fill` after `set_fill_color`, while the updated `style` now contains a
`fill` property — so the claimed exclusivity fails on such inputs. -/
theorem c1_counterexample :
    fillConflict
      (set_fill_color ⟨none, none, some (chars ("#aaa")), some (chars ("stroke:#000"))⟩
        (chars ("#111"))) = true := by
  decide

/-- Claim C1 (amended): after `set_fill_color(element, color)` the element
does not carry both a bare `fill` attribute and a `style` whose map contains
`fill`, provided the element did not already carry both a bare `fill`
attribute and a non-empty `style` attribute before the call. -/
theorem c1_set_fill_color_exclusive (e : Elem) (color : Str)
    (h : e.fillAttr = none ∨ truthy e.styleAttr = false) :
    fillConflict (set_fill_color e color) = false := by
  rcases e with ⟨i, c, f, st⟩
  cases st with
  | none => simp [set_fill_color, fillConflict]
  | some s =>
    cases s with
    | nil => simp [set_fill_color, fillConflict, parse_style, hasKey]
    | cons a as_ =>
      rcases h with h | h
      · simp only [Elem.fillAttr] at h
        subst h
        simp [set_fill_color, fillConflict]
      · simp [truthy] at h

/-- Claim C1, witness: the amended theorem applied to an element with a
`style` attribute and no bare `fill`. -/
theorem c1_witness :
    fillConflict
      (set_fill_color ⟨none, none, none, some (chars ("stroke:#000"))⟩ (chars ("#111"))) =
      false :=
  c1_set_fill_color_exclusive ⟨none, none, none, some (chars ("stroke:#000"))⟩
    (chars ("#111")) (Or.inl rfl)

/-- Claim C2, counterexample: a path node that resolves to no code, has no
`fill` attribute and whose parsed style map contains no `fill` property is
nevertheless left without the default color, because the code tests for the
substring `"fill:"` — which occurs inside the `x-fill` property — rather than
for a parsed `fill` property. -/
theorem c2_counterexample :
    (color_map_walk [] (chars ("#ececec"))
        [⟨none, none, none, some (chars ("x-fill:red"))⟩]).1 =
      [⟨none, none, none, some (chars ("x-fill:red"))⟩]
    ∧ hasKey fillKey (parse_style (chars ("x-fill:red"))) = false
    ∧ set_fill_color ⟨none, none, none, some (chars ("x-fill:red"))⟩ (chars ("#ececec")) ≠
        ⟨none, none, none, some (chars ("x-fill:red"))⟩ := by
  decide

/-- Claim C2 (amended): for a path node that resolves to no region code, the
default color is applied iff the node's `fill` attribute is absent or empty
and the substring `"fill:"` does not occur anywhere in its `style` attribute
string (a plain substring test, not a parsed-property test); the default
branch never changes the colored counter. -/
theorem c2_default_fill (data : Catalog) (dc : Str) (st : WalkSt) (e : Elem)
    (h : noResolve data e = true) :
    ((color_step data dc st e).1 =
        (if e.fillAttr.getD [] = [] ∧ containsSub fillColonKey (e.styleAttr.getD []) = false
         then set_fill_color e dc else e))
    ∧ (color_step data dc st e).2.colored = st.colored := by
  unfold color_step
  cases hid : alookup (trim (e.idAttr.getD [])) data with
  | some v => simp [noResolve, hid] at h
  | none =>
    cases hcls : alookup (trim (e.classAttr.getD [])) class_to_code with
    | none =>
      by_cases hf : e.fillAttr.getD [] = [] <;>
        by_cases hs : containsSub fillColonKey (e.styleAttr.getD []) = true <;>
          simp [hid, hcls, defaultBranch, hf, hs]
    | some code =>
      cases hcode : alookup code data with
      | some v => simp [noResolve, hid, hcls, hcode] at h
      | none =>
        by_cases hf : e.fillAttr.getD [] = [] <;>
          by_cases hs : containsSub fillColonKey (e.styleAttr.getD []) = true <;>
            simp [hid, hcls, hcode, defaultBranch, hf, hs]

/-- Claim C2, witness: the amended theorem applied to an unmatched node whose
style is `"x-fill:red"`; the substring test blocks the default fill. -/
theorem c2_witness :
    ((color_step [] (chars ("#ececec")) ⟨0, 0, []⟩
          ⟨none, none, none, some (chars ("x-fill:red"))⟩).1 =
        (if (⟨none, none, none, some (chars ("x-fill:red"))⟩ : Elem).fillAttr.getD [] = [] ∧
            containsSub fillColonKey
              ((⟨none, none, none, some (chars ("x-fill:red"))⟩ : Elem).styleAttr.getD []) = false
         then set_fill_color ⟨none, none, none, some (chars ("x-fill:red"))⟩ (chars ("#ececec"))
         else ⟨none, none, none, some (chars ("x-fill:red"))⟩))
    ∧ (color_step [] (chars ("#ececec")) ⟨0, 0, []⟩
          ⟨none, none, none, some (chars ("x-fill:red"))⟩).2.colored = 0 :=
  c2_default_fill [] (chars ("#ececec")) ⟨0, 0, []⟩
    ⟨none, none, none, some (chars ("x-fill:red"))⟩ (by decide)

/-- One step of the walk adds 1 to the multi-path counter exactly when the
node resolves through the class alias, whether or not it is colored. -/
theorem color_step_multi (data : Catalog) (dc : Str) (st : WalkSt) (e : Elem) :
    (color_step data dc st e).2.multi =
      st.multi + (if viaClassPred data e then 1 else 0) := by
  unfold color_step
  cases hid : alookup (trim (e.idAttr.getD [])) data with
  | some v =>
    by_cases hc : v.color ≠ [] <;> simp [viaClassPred, hid, hc, defaultBranch] <;> split <;> rfl
  | none =>
    cases hcls : alookup (trim (e.classAttr.getD [])) class_to_code with
    | none =>
      simp only [viaClassPred, hid, hcls]
      simp [defaultBranch]
      split <;> rfl
    | some code =>
      cases hcode : alookup code data with
      | none =>
        simp only [viaClassPred, hid, hcls, hcode]
        simp [defaultBranch]
        split <;> rfl
      | some v =>
        by_cases hc : v.color ≠ [] <;>
          simp [viaClassPred, hid, hcls, hcode, hc, defaultBranch] <;> split <;> rfl

/-- The walk's multi-path counter over a path list, with any start state. -/
theorem colorPaths_multi (data : Catalog) (dc : Str) :
    ∀ (ps : List Elem) (st : WalkSt),
      (colorPaths data dc ps st).2.multi = st.multi + ps.countP (viaClassPred data)
  | [], st => by simp [colorPaths]
  | p :: ps, st => by
    simp only [colorPaths, colorPaths_multi data dc ps, color_step_multi,
      List.countP_cons]
    split <;> omega

/-- Claim C4, counterexample: a catalog whose only entry has the empty-string
color and a document whose only path matches it through the class alias.  The
multi-path counter becomes 1 at resolution time, yet the node is not colored
(the colored counter stays 0, the falsy color sends the node to the default
branch) — so the counter does not equal the number of nodes *colored* via the
alias lookup. -/
theorem c4_counterexample :
    (color_map_walk [(chars ("CA"), ⟨[], chars ("Canada")⟩)] (chars ("#ececec"))
        [⟨none, some (chars ("Canada")), none, none⟩]).2.multi_path = 1
    ∧ (color_map_walk [(chars ("CA"), ⟨[], chars ("Canada")⟩)] (chars ("#ececec"))
        [⟨none, some (chars ("Canada")), none, none⟩]).2.colored = 0 := by
  decide

/-- Claim C4 (amended): the multi_path statistic equals exactly the number of
path nodes whose id lookup missed and whose class is an alias-table value
mapping to a catalog code — the counter counts class-alias *resolutions*,
which coincide with class-alias colorings whenever the resolved catalog color
is a non-empty string; a node resolved via direct id match never
contributes. -/
theorem c4_multi_path (data : Catalog) (dc : Str) (paths : List Elem) :
    (color_map_walk data dc paths).2.multi_path = paths.countP (viaClassPred data) := by
  simp [color_map_walk, mkStats, colorPaths_multi]

/-- A dropWhile that keeps the whole length keeps the whole list. -/
theorem dropWhile_eq_self_of_length {p : Char → Bool} {l : Str}
    (h : (l.dropWhile p).length = l.length) : l.dropWhile p = l := by
  cases l with
  | nil => rfl
  | cons c cs =>
    by_cases hc : p c
    · exfalso
      rw [List.dropWhile_cons_of_pos hc] at h
      have := (List.dropWhile_sublist p : List.Sublist (cs.dropWhile p) cs).length_le
      simp at h
      omega
    · exact List.dropWhile_cons_of_neg hc

/-- A trim-fixed string is fixed by both one-sided whitespace drops. -/
theorem trim_eq_self_parts {l : Str} (h : trim l = l) :
    l.dropWhile isWS = l ∧ l.reverse.dropWhile isWS = l.reverse := by
  unfold trim at h
  have hd : l.dropWhile isWS = l := by
    apply dropWhile_eq_self_of_length
    have h1 := congrArg List.length h
    have h2 := (List.dropWhile_sublist isWS :
        List.Sublist ((l.dropWhile isWS).reverse.dropWhile isWS) (l.dropWhile isWS).reverse).length_le
    have h3 := (List.dropWhile_sublist isWS : List.Sublist (l.dropWhile isWS) l).length_le
    simp only [List.length_reverse] at h1 h2
    omega
  refine ⟨hd, ?_⟩
  rw [hd] at h
  have := congrArg List.reverse h
  simpa using this

/-- Appending two head-wise dropWhile-fixed lists stays fixed. -/
theorem dropWhile_append_of {p : Char → Bool} {l m : Str}
    (hl : l.dropWhile p = l) (hm : m.dropWhile p = m) :
    (l ++ m).dropWhile p = l ++ m := by
  cases l with
  | nil => simpa using hm
  | cons c cs =>
    have hc : ¬ p c = true := by
      intro hc
      rw [List.dropWhile_cons_of_pos hc] at hl
      have := congrArg List.length hl
      have h2 := (List.dropWhile_sublist p : List.Sublist (cs.dropWhile p) cs).length_le
      simp at this
      omega
    rw [List.cons_append, List.dropWhile_cons_of_neg hc]

/-- A `prop:value` segment with trim-fixed sides is trim-fixed. -/
theorem trim_seg {k v : Str} (hk : trim k = k) (hv : trim v = v) :
    trim (k ++ ':' :: v) = k ++ ':' :: v := by
  obtain ⟨hk1, hk2⟩ := trim_eq_self_parts hk
  obtain ⟨hv1, hv2⟩ := trim_eq_self_parts hv
  have hcolon : (([':'] : Str).dropWhile isWS) = [':'] := by decide
  unfold trim
  have h1 : (k ++ ':' :: v).dropWhile isWS = k ++ ':' :: v := by
    apply dropWhile_append_of hk1
    have : (':' :: v : Str) = [':'] ++ v := rfl
    rw [this]
    exact dropWhile_append_of hcolon hv1
  rw [h1]
  have h2 : (k ++ ':' :: v).reverse.dropWhile isWS = (k ++ ':' :: v).reverse := by
    rw [List.reverse_append, List.reverse_cons]
    apply dropWhile_append_of _ hk2
    exact dropWhile_append_of hv2 (by decide)
  rw [h2, List.reverse_reverse]

/-- Splitting a colon-free prefix at the first colon recovers both sides. -/
theorem splitFirstColon_seg {k v : Str} (hk : ':' ∉ k) :
    splitFirstColon (k ++ ':' :: v) = some (k, v) := by
  induction k with
  | nil => simp [splitFirstColon]
  | cons c cs ih =>
    have hc : ¬ c = ':' := fun h => hk (h ▸ List.mem_cons_self c cs)
    have ih' := ih (fun h => hk (List.mem_cons_of_mem c h))
    simp [splitFirstColon, hc, ih']

/-- `splitOnSemi` never returns the empty list. -/
theorem splitOnSemi_ne_nil (l : Str) : splitOnSemi l ≠ [] := by
  cases l with
  | nil => simp [splitOnSemi]
  | cons c cs =>
    simp only [splitOnSemi]
    cases h : splitOnSemi cs with
    | nil => simp
    | cons s ss =>
      by_cases hc : c = ';' <;> simp [hc]

/-- Splitting a semicolon-free string on semicolons is the singleton. -/
theorem splitOnSemi_no_semi {l : Str} (h : ';' ∉ l) : splitOnSemi l = [l] := by
  induction l with
  | nil => rfl
  | cons c cs ih =>
    have hc : ¬ c = ';' := fun hc => h (hc ▸ List.mem_cons_self c cs)
    have ih' := ih (fun hm => h (List.mem_cons_of_mem c hm))
    simp [splitOnSemi, ih', hc]

/-- Splitting peels off a semicolon-free first segment. -/
theorem splitOnSemi_append {l m : Str} (h : ';' ∉ l) :
    splitOnSemi (l ++ ';' :: m) = l :: splitOnSemi m := by
  induction l with
  | nil =>
    simp only [List.nil_append, splitOnSemi]
    cases hm : splitOnSemi m with
    | nil => exact absurd hm (splitOnSemi_ne_nil m)
    | cons s ss => simp
  | cons c cs ih =>
    have hc : ¬ c = ';' := fun hc => h (hc ▸ List.mem_cons_self c cs)
    have ih' := ih (fun hm => h (List.mem_cons_of_mem c hm))
    simp only [List.cons_append, splitOnSemi, List.append_eq]
    rw [ih']
    simp [hc]

/-- `style_to_string` of a list with a non-empty tail starts with the head
segment and a semicolon. -/
theorem style_to_string_cons (kv : Str × Str) (r1 : Str × Str) (rs : List (Str × Str)) :
    style_to_string (kv :: r1 :: rs) =
      (kv.1 ++ ':' :: kv.2) ++ ';' :: style_to_string (r1 :: rs) := by
  simp [style_to_string]

/-- `style_to_string` of a non-empty map is non-empty. -/
theorem style_to_string_ne_nil {m : List (Str × Str)} (hm : m ≠ []) :
    style_to_string m ≠ [] := by
  cases m with
  | nil => exact absurd rfl hm
  | cons kv rest =>
    cases rest with
    | nil =>
      simp only [style_to_string]
      intro h
      rcases List.append_eq_nil.mp h with ⟨-, h2⟩
      exact List.cons_ne_nil _ _ h2
    | cons r1 rs =>
      rw [style_to_string_cons]
      intro h
      rcases List.append_eq_nil.mp h with ⟨-, h2⟩
      exact List.cons_ne_nil _ _ h2

/-- Splitting the serialized form on semicolons recovers the segments. -/
theorem splitOnSemi_style_to_string {m : List (Str × Str)} (hm : m ≠ [])
    (hok : ∀ kv ∈ m, ';' ∉ kv.1 ∧ ';' ∉ kv.2) :
    splitOnSemi (style_to_string m) = m.map (fun kv => kv.1 ++ ':' :: kv.2) := by
  induction m with
  | nil => exact absurd rfl hm
  | cons kv rest ih =>
    have hseg : ';' ∉ kv.1 ++ ':' :: kv.2 := by
      obtain ⟨h1, h2⟩ := hok kv (List.mem_cons_self kv rest)
      intro hmem
      rcases List.mem_append.mp hmem with hmem | hmem
      · exact h1 hmem
      · rcases List.mem_cons.mp hmem with hmem | hmem
        · cases hmem
        · exact h2 hmem
    cases rest with
    | nil =>
      simp only [style_to_string]
      rw [splitOnSemi_no_semi hseg]
      rfl
    | cons r1 rs =>
      rw [style_to_string_cons, splitOnSemi_append hseg,
        ih (List.cons_ne_nil r1 rs) (fun x hx => hok x (List.mem_cons_of_mem kv hx))]
      rfl

/-- Inserting a fresh key appends the pair. -/
theorem dictInsert_of_not_mem {α : Type} {k : Str} {v : α} {acc : List (Str × α)}
    (h : k ∉ acc.map Prod.fst) : dictInsert k v acc = acc ++ [(k, v)] := by
  induction acc with
  | nil => rfl
  | cons kv rest ih =>
    simp only [List.map_cons, List.mem_cons, not_or] at h
    simp only [dictInsert]
    rw [if_neg (fun he => h.1 he.symm), ih h.2]
    rfl

/-- The parse loop over well-formed serialized segments rebuilds the map. -/
theorem parse_loop {m acc : List (Str × Str)}
    (hok : ∀ kv ∈ m, trim kv.1 = kv.1 ∧ trim kv.2 = kv.2 ∧ ':' ∉ kv.1)
    (hfresh : ∀ k ∈ m.map Prod.fst, k ∉ acc.map Prod.fst)
    (hnodup : (m.map Prod.fst).Nodup) :
    (m.map (fun kv => kv.1 ++ ':' :: kv.2)).foldl
      (fun styles declaration =>
        let d := trim declaration
        match splitFirstColon d with
        | some pv => dictInsert (trim pv.1) (trim pv.2) styles
        | none => styles)
      acc = acc ++ m := by
  induction m generalizing acc with
  | nil => simp
  | cons kv rest ih =>
    obtain ⟨hk, hv, hc⟩ := hok kv (List.mem_cons_self kv rest)
    have hstep :
        (match splitFirstColon (trim (kv.1 ++ ':' :: kv.2)) with
         | some pv => dictInsert (trim pv.1) (trim pv.2) acc
         | none => acc) = acc ++ [kv] := by
      rw [trim_seg hk hv, splitFirstColon_seg hc]
      simp only [hk, hv]
      exact dictInsert_of_not_mem (hfresh kv.1 (by simp))
    have hnd : (rest.map Prod.fst).Nodup ∧ kv.1 ∉ rest.map Prod.fst := by
      rw [List.map_cons, List.nodup_cons] at hnodup
      exact ⟨hnodup.2, hnodup.1⟩
    have hfresh' : ∀ k ∈ rest.map Prod.fst, k ∉ (acc ++ [kv]).map Prod.fst := by
      intro k hk'
      simp only [List.map_append, List.mem_append, List.map_cons, List.map_nil,
        List.mem_singleton, not_or]
      exact ⟨hfresh k (List.mem_cons_of_mem _ hk'), fun he => hnd.2 (he ▸ hk')⟩
    simp only [List.map_cons, List.foldl_cons]
    rw [hstep]
    rw [ih (fun x hx => hok x (List.mem_cons_of_mem kv hx)) hfresh' hnd.1]
    simp

/-- Claim C5, counterexample: the map `[("a", "b;c")]` has no duplicate keys,
yet serializing and re-parsing it loses the `;c` tail of the value, so the
round-trip law fails without further restrictions on keys and values. -/
theorem c5_counterexample :
    ((([(chars ("a"), chars ("b;c"))] : List (Str × Str)).map Prod.fst).Nodup)
    ∧ parse_style (style_to_string [(chars ("a"), chars ("b;c"))]) ≠
        [(chars ("a"), chars ("b;c"))] := by
  constructor
  · decide
  · decide

/-- Claim C5 (amended): `parse_style (style_to_string m) = m` for every
ordered style map `m` with no duplicate keys whose keys and values are
whitespace-trimmed and semicolon-free and whose keys are colon-free. -/
theorem c5_roundtrip (m : List (Str × Str))
    (hnodup : (m.map Prod.fst).Nodup)
    (hok : ∀ kv ∈ m, trim kv.1 = kv.1 ∧ trim kv.2 = kv.2 ∧
      ';' ∉ kv.1 ∧ ';' ∉ kv.2 ∧ ':' ∉ kv.1) :
    parse_style (style_to_string m) = m := by
  cases m with
  | nil => rfl
  | cons kv rest =>
    have hne := style_to_string_ne_nil (List.cons_ne_nil kv rest)
    unfold parse_style
    rw [if_neg hne]
    rw [splitOnSemi_style_to_string (List.cons_ne_nil kv rest)
      (fun x hx => ⟨(hok x hx).2.2.1, (hok x hx).2.2.2.1⟩)]
    have := @parse_loop (kv :: rest) []
      (fun x hx => ⟨(hok x hx).1, (hok x hx).2.1, (hok x hx).2.2.2.2⟩)
      (by simp) hnodup
    simpa using this

/-- Claim C5, witness: the amended round trip on a two-entry style map. -/
theorem c5_witness :
    parse_style (style_to_string
        [(chars ("fill"), chars ("#fff")), (chars ("stroke"), chars ("#000"))]) =
      [(chars ("fill"), chars ("#fff")), (chars ("stroke"), chars ("#000"))] :=
  c5_roundtrip [(chars ("fill"), chars ("#fff")), (chars ("stroke"), chars ("#000"))]
    (by decide) (by decide)


/-- `set_fill_color` touches only the `fill` and `style` attributes. -/
theorem set_fill_color_proj (e : Elem) (color : Str) :
    (set_fill_color e color).idAttr = e.idAttr ∧
      (set_fill_color e color).classAttr = e.classAttr := by
  rcases e with ⟨i, cl, f, stl⟩
  cases stl with
  | none => exact ⟨rfl, rfl⟩
  | some s =>
    by_cases hs : s ≠ []
    · simp [set_fill_color, hs]
    · simp [set_fill_color, hs]

/-- The default branch never changes the walk state. -/
theorem defaultBranch_snd (p : Elem) (st : WalkSt) (dc : Str) :
    (defaultBranch p st dc).2 = st := by
  simp only [defaultBranch]
  split <;> rfl

/-- The default branch leaves the node alone or default-fills it. -/
theorem defaultBranch_fst_cases (p : Elem) (st : WalkSt) (dc : Str) :
    (defaultBranch p st dc).1 = p ∨ (defaultBranch p st dc).1 = set_fill_color p dc := by
  simp only [defaultBranch]
  split
  · exact Or.inr rfl
  · exact Or.inl rfl

/-- A walk step leaves the node alone or recolors it via `set_fill_color`. -/
theorem color_step_fst_cases (data : Catalog) (dc : Str) (st : WalkSt) (e : Elem) :
    (color_step data dc st e).1 = e ∨ ∃ c, (color_step data dc st e).1 = set_fill_color e c := by
  unfold color_step
  cases hid : alookup (trim (e.idAttr.getD [])) data with
  | some v =>
    by_cases hc : v.color ≠ []
    · simp only [hid]
      rw [if_pos hc]
      exact Or.inr ⟨v.color, rfl⟩
    · simp only [hid]
      rw [if_neg hc]
      rcases defaultBranch_fst_cases e _ dc with h | h
      · exact Or.inl h
      · exact Or.inr ⟨dc, h⟩
  | none =>
    cases hcls : alookup (trim (e.classAttr.getD [])) class_to_code with
    | none =>
      simp only [hid, hcls]
      rcases defaultBranch_fst_cases e _ dc with h | h
      · exact Or.inl h
      · exact Or.inr ⟨dc, h⟩
    | some code =>
      cases hcode : alookup code data with
      | none =>
        simp only [hid, hcls, hcode]
        rcases defaultBranch_fst_cases e _ dc with h | h
        · exact Or.inl h
        · exact Or.inr ⟨dc, h⟩
      | some v =>
        by_cases hc : v.color ≠ []
        · simp only [hid, hcls, hcode]
          rw [if_pos hc]
          exact Or.inr ⟨v.color, rfl⟩
        · simp only [hid, hcls, hcode]
          rw [if_neg hc]
          rcases defaultBranch_fst_cases e _ dc with h | h
          · exact Or.inl h
          · exact Or.inr ⟨dc, h⟩

/-- One walk step preserves the `id` and `class` attributes of the node. -/
theorem color_step_proj (data : Catalog) (dc : Str) (st : WalkSt) (e : Elem) :
    (color_step data dc st e).1.idAttr = e.idAttr ∧
      (color_step data dc st e).1.classAttr = e.classAttr := by
  rcases color_step_fst_cases data dc st e with h | ⟨c, h⟩
  · rw [h]; exact ⟨rfl, rfl⟩
  · rw [h]; exact set_fill_color_proj e c

/-- The state component of a walk step depends on the node only through its `id` and `class` attributes. -/
theorem color_step_snd_congr (data : Catalog) (dc : Str) (st : WalkSt) {e1 e2 : Elem}
    (h1 : e1.idAttr = e2.idAttr) (h2 : e1.classAttr = e2.classAttr) :
    (color_step data dc st e1).2 = (color_step data dc st e2).2 := by
  unfold color_step
  rw [h1, h2]
  cases hid : alookup (trim (e2.idAttr.getD [])) data with
  | some v =>
    simp only [hid]
    by_cases hc : v.color ≠ []
    · rw [if_pos hc, if_pos hc]
    · rw [if_neg hc, if_neg hc, defaultBranch_snd, defaultBranch_snd]
  | none =>
    cases hcls : alookup (trim (e2.classAttr.getD [])) class_to_code with
    | none =>
      simp only [hid, hcls]
      rw [defaultBranch_snd, defaultBranch_snd]
    | some code =>
      cases hcode : alookup code data with
      | none =>
        simp only [hid, hcls, hcode]
        rw [defaultBranch_snd, defaultBranch_snd]
      | some v =>
        simp only [hid, hcls, hcode]
        by_cases hc : v.color ≠ []
        · rw [if_pos hc, if_pos hc]
        · rw [if_neg hc, if_neg hc, defaultBranch_snd, defaultBranch_snd]


/-- The walk preserves every node's `id` and `class` attributes. -/
theorem colorPaths_proj (data : Catalog) (dc : Str) :
    ∀ (ps : List Elem) (st : WalkSt),
      (colorPaths data dc ps st).1.map (fun e => (e.idAttr, e.classAttr)) =
        ps.map (fun e => (e.idAttr, e.classAttr))
  | [], st => rfl
  | p :: ps, st => by
    simp only [colorPaths, List.map_cons]
    refine congrArg₂ _ ?_ (colorPaths_proj data dc ps _)
    obtain ⟨ha, hb⟩ := color_step_proj data dc st p
    rw [ha, hb]

/-- The final walk state depends on the path list only through each node's `id` and `class` attributes. -/
theorem colorPaths_snd_congr (data : Catalog) (dc : Str) :
    ∀ (ps1 ps2 : List Elem) (st : WalkSt),
      ps1.map (fun e => (e.idAttr, e.classAttr)) = ps2.map (fun e => (e.idAttr, e.classAttr)) →
      (colorPaths data dc ps1 st).2 = (colorPaths data dc ps2 st).2
  | [], ps2, st, h => by
    obtain rfl : ps2 = [] := by
      have h2 := h.symm
      rw [List.map_nil, List.map_eq_nil] at h2
      exact h2
    rfl
  | p1 :: t1, ps2, st, h => by
    cases ps2 with
    | nil => simp at h
    | cons p2 t2 =>
      simp only [List.map_cons, List.cons.injEq, Prod.mk.injEq] at h
      obtain ⟨⟨hid, hcls⟩, htail⟩ := h
      simp only [colorPaths]
      rw [color_step_snd_congr data dc st hid hcls]
      exact colorPaths_snd_congr data dc t1 t2 _ htail

/-- Claim C6: the coloring walk is idempotent on statistics — rerunning the
colorer with the same catalog and default color on the document produced by a
first run yields the same colored and unmatched counts (in fact the same full
statistics, since code resolution reads only the untouched `id` and `class`
attributes). -/
theorem c6_idempotent (data : Catalog) (dc : Str) (paths : List Elem) :
    (color_map_walk data dc (color_map_walk data dc paths).1).2.colored =
        (color_map_walk data dc paths).2.colored
    ∧ (color_map_walk data dc (color_map_walk data dc paths).1).2.unmatched =
        (color_map_walk data dc paths).2.unmatched := by
  have hst :
      (colorPaths data dc (colorPaths data dc paths ⟨0, 0, []⟩).1 ⟨0, 0, []⟩).2 =
        (colorPaths data dc paths ⟨0, 0, []⟩).2 :=
    colorPaths_snd_congr data dc _ paths ⟨0, 0, []⟩ (colorPaths_proj data dc paths ⟨0, 0, []⟩)
  simp only [color_map_walk]
  rw [hst]
  exact ⟨rfl, rfl⟩


/-- `lexLe` is total: Python string comparison orders any two strings. -/
theorem lexLe_total : ∀ (a b : Str), lexLe a b = true ∨ lexLe b a = true
  | [], _ => Or.inl rfl
  | _ :: _, [] => Or.inr rfl
  | a :: as_, b :: bs => by
    rcases lt_trichotomy a b with h | h | h
    · left; simp [lexLe, h]
    · subst h
      rcases lexLe_total as_ bs with h2 | h2
      · left; simp [lexLe, lt_irrefl, h2]
      · right; simp [lexLe, lt_irrefl, h2]
    · right; simp [lexLe, h]

/-- `lexLe` is transitive. -/
theorem lexLe_trans : ∀ {a b c : Str}, lexLe a b = true → lexLe b c = true → lexLe a c = true
  | [], _, _, _, _ => rfl
  | _ :: _, [], _, h1, _ => by simp [lexLe] at h1
  | _ :: _, _ :: _, [], _, h2 => by simp [lexLe] at h2
  | a :: as_, b :: bs, c :: cs, h1, h2 => by
    rcases lt_trichotomy a b with hab | hab | hab
    · rcases lt_trichotomy b c with hbc | hbc | hbc
      · have hac : a < c := lt_trans hab hbc
        simp [lexLe, hac]
      · subst hbc; simp [lexLe, hab]
      · simp [lexLe, lt_asymm hbc, hbc] at h2
    · subst hab
      rcases lt_trichotomy a c with hac | hac | hac
      · simp [lexLe, hac]
      · subst hac
        simp only [lexLe, lt_irrefl, if_false] at h1 h2 ⊢
        exact lexLe_trans h1 h2
      · simp [lexLe, lt_asymm hac, hac] at h2
    · simp [lexLe, lt_asymm hab, hab] at h1

/-- A successful dict lookup means the key occurs among the keys. -/
theorem alookup_mem {α : Type} {k : Str} {l : List (Str × α)} {v : α}
    (h : alookup k l = some v) : k ∈ l.map Prod.fst := by
  induction l with
  | nil => exact Option.noConfusion h
  | cons kv rest ih =>
    rw [List.map_cons, List.mem_cons]
    by_cases he : kv.1 = k
    · exact Or.inl he.symm
    · simp only [alookup] at h
      rw [if_neg he] at h
      exact Or.inr (ih h)

/-- Membership after a set-insert. -/
theorem mem_insertIfAbsent {c k : Str} {l : List Str} :
    c ∈ insertIfAbsent k l ↔ c = k ∨ c ∈ l := by
  unfold insertIfAbsent
  split
  · rename_i hk
    constructor
    · exact fun h => Or.inr h
    · rintro (rfl | h)
      · exact hk
      · exact h
  · simp [or_comm]

/-- Set-insert preserves freedom from duplicates. -/
theorem nodup_insertIfAbsent {k : Str} {l : List Str} (h : l.Nodup) :
    (insertIfAbsent k l).Nodup := by
  unfold insertIfAbsent
  split
  · exact h
  · rename_i hk
    refine List.nodup_append.mpr ⟨h, List.nodup_singleton k, ?_⟩
    intro a ha hb
    rw [List.mem_singleton] at hb
    exact hk (hb ▸ ha)

/-- One walk step leaves the matched set alone or inserts a catalog key. -/
theorem color_step_matched (data : Catalog) (dc : Str) (st : WalkSt) (e : Elem) :
    (color_step data dc st e).2.matched = st.matched ∨
      ∃ code, code ∈ data.map Prod.fst ∧
        (color_step data dc st e).2.matched = insertIfAbsent code st.matched := by
  unfold color_step
  cases hid : alookup (trim (e.idAttr.getD [])) data with
  | some v =>
    simp only [hid]
    by_cases hc : v.color ≠ []
    · rw [if_pos hc]
      exact Or.inr ⟨_, alookup_mem hid, rfl⟩
    · rw [if_neg hc, defaultBranch_snd]
      exact Or.inl rfl
  | none =>
    cases hcls : alookup (trim (e.classAttr.getD [])) class_to_code with
    | none =>
      simp only [hid, hcls]
      rw [defaultBranch_snd]
      exact Or.inl rfl
    | some code =>
      cases hcode : alookup code data with
      | none =>
        simp only [hid, hcls, hcode]
        rw [defaultBranch_snd]
        exact Or.inl rfl
      | some v =>
        simp only [hid, hcls, hcode]
        by_cases hc : v.color ≠ []
        · rw [if_pos hc]
          exact Or.inr ⟨code, alookup_mem hcode, rfl⟩
        · rw [if_neg hc, defaultBranch_snd]
          exact Or.inl rfl

/-- Walk invariant: the matched set stays a duplicate-free subset of the
catalog keys. -/
theorem colorPaths_matched_inv (data : Catalog) (dc : Str) :
    ∀ (ps : List Elem) (st : WalkSt),
      (∀ c ∈ st.matched, c ∈ data.map Prod.fst) → st.matched.Nodup →
      (∀ c ∈ (colorPaths data dc ps st).2.matched, c ∈ data.map Prod.fst) ∧
        (colorPaths data dc ps st).2.matched.Nodup
  | [], st, hsub, hnd => ⟨hsub, hnd⟩
  | p :: ps, st, hsub, hnd => by
    simp only [colorPaths]
    apply colorPaths_matched_inv data dc ps
    · rcases color_step_matched data dc st p with h | ⟨code, hm, h⟩
      · rw [h]; exact hsub
      · rw [h]
        intro c hc
        rcases mem_insertIfAbsent.mp hc with rfl | hc
        · exact hm
        · exact hsub c hc
    · rcases color_step_matched data dc st p with h | ⟨code, hm, h⟩
      · rw [h]; exact hnd
      · rw [h]; exact nodup_insertIfAbsent hnd

/-- Counting a set difference of duplicate-free lists. -/
theorem length_filter_not_mem {keys m : List Str} (hk : keys.Nodup) (hm : m.Nodup)
    (hsub : ∀ c ∈ m, c ∈ keys) :
    (keys.filter (fun k => decide (k ∉ m))).length = keys.length - m.length := by
  have hnodup : (keys.filter (fun k => decide (k ∉ m))).Nodup := hk.filter _
  have hmsub : m.toFinset ⊆ keys.toFinset := by
    intro a ha
    rw [List.mem_toFinset] at ha ⊢
    exact hsub a ha
  have h1 : (keys.filter (fun k => decide (k ∉ m))).toFinset =
      keys.toFinset \ m.toFinset := by
    ext a
    rw [List.mem_toFinset, Finset.mem_sdiff, List.mem_toFinset, List.mem_toFinset,
      List.mem_filter]
    simp only [decide_eq_true_eq]
  calc (keys.filter (fun k => decide (k ∉ m))).length
      = (keys.filter (fun k => decide (k ∉ m))).toFinset.card :=
        (List.toFinset_card_of_nodup hnodup).symm
    _ = (keys.toFinset \ m.toFinset).card := by rw [h1]
    _ = keys.toFinset.card - m.toFinset.card := Finset.card_sdiff hmsub
    _ = keys.length - m.length := by
        rw [List.toFinset_card_of_nodup hk, List.toFinset_card_of_nodup hm]

/-- Claim C3: the walk's matched codes always form a duplicate-free subset of
the catalog keys, the unmatched statistic equals the catalog size minus the
number of distinct matched codes, and unmatched_codes is exactly the set of
catalog keys minus the matched codes, listed in ascending lexicographic
order without duplicates. -/
theorem c3_stats_consistency (data : Catalog) (dc : Str) (paths : List Elem)
    (hkeys : (data.map Prod.fst).Nodup) :
    (colorPaths data dc paths ⟨0, 0, []⟩).2.matched.toFinset ⊆
        (data.map Prod.fst).toFinset
    ∧ (color_map_walk data dc paths).2.unmatched =
        data.length - (colorPaths data dc paths ⟨0, 0, []⟩).2.matched.length
    ∧ (colorPaths data dc paths ⟨0, 0, []⟩).2.matched.Nodup
    ∧ (color_map_walk data dc paths).2.unmatched_codes.toFinset =
        (data.map Prod.fst).toFinset \
          (colorPaths data dc paths ⟨0, 0, []⟩).2.matched.toFinset
    ∧ List.Sorted lexLeP (color_map_walk data dc paths).2.unmatched_codes
    ∧ (color_map_walk data dc paths).2.unmatched_codes.Nodup := by
  obtain ⟨hsub, hnd⟩ :=
    colorPaths_matched_inv data dc paths ⟨0, 0, []⟩
      (fun c hc => absurd hc (List.not_mem_nil c)) List.nodup_nil
  haveI : IsTotal Str lexLeP := ⟨lexLe_total⟩
  haveI : IsTrans Str lexLeP := ⟨fun _ _ _ => lexLe_trans⟩
  have hdedup : (data.map Prod.fst).dedup = data.map Prod.fst := hkeys.dedup
  have humnodup : (unmatchedSet data (colorPaths data dc paths ⟨0, 0, []⟩).2.matched).Nodup := by
    unfold unmatchedSet
    rw [hdedup]
    exact hkeys.filter _
  have hummem : ∀ c, c ∈ unmatchedSet data (colorPaths data dc paths ⟨0, 0, []⟩).2.matched ↔
      (c ∈ data.map Prod.fst ∧ c ∉ (colorPaths data dc paths ⟨0, 0, []⟩).2.matched) := by
    intro c
    unfold unmatchedSet
    rw [hdedup, List.mem_filter]
    simp only [decide_eq_true_eq]
  refine ⟨?_, ?_, hnd, ?_, ?_, ?_⟩
  · intro a ha
    rw [List.mem_toFinset] at ha ⊢
    exact hsub a ha
  · simp only [color_map_walk, mkStats]
    unfold unmatchedSet
    rw [hdedup, length_filter_not_mem hkeys hnd hsub, List.length_map]
  · ext a
    simp only [color_map_walk, mkStats, sortCodes]
    simp only [List.mem_toFinset, Finset.mem_sdiff, List.mem_toFinset,
      List.mem_insertionSort]
    exact hummem a
  · simp only [color_map_walk, mkStats, sortCodes]
    exact List.sorted_insertionSort lexLeP _
  · simp only [color_map_walk, mkStats, sortCodes]
    exact ((List.perm_insertionSort lexLeP _).nodup_iff).mpr humnodup


/-- Claim C3, witness: the statistics theorem applied to a concrete two-entry
catalog and a one-path document. -/
theorem c3_witness :
    (colorPaths [(chars ("US"), ⟨chars ("#111"), chars ("USA")⟩),
          (chars ("CA"), ⟨chars ("#222"), chars ("Canada")⟩)] (chars ("#ececec"))
          [⟨some (chars ("US")), none, none, none⟩] ⟨0, 0, []⟩).2.matched.toFinset ⊆
        (([(chars ("US"), ⟨chars ("#111"), chars ("USA")⟩),
          (chars ("CA"), ⟨chars ("#222"), chars ("Canada")⟩)] : Catalog).map Prod.fst).toFinset
    ∧ (color_map_walk [(chars ("US"), ⟨chars ("#111"), chars ("USA")⟩),
          (chars ("CA"), ⟨chars ("#222"), chars ("Canada")⟩)] (chars ("#ececec"))
          [⟨some (chars ("US")), none, none, none⟩]).2.unmatched =
        ([(chars ("US"), ⟨chars ("#111"), chars ("USA")⟩),
          (chars ("CA"), ⟨chars ("#222"), chars ("Canada")⟩)] : Catalog).length -
          (colorPaths [(chars ("US"), ⟨chars ("#111"), chars ("USA")⟩),
            (chars ("CA"), ⟨chars ("#222"), chars ("Canada")⟩)] (chars ("#ececec"))
            [⟨some (chars ("US")), none, none, none⟩] ⟨0, 0, []⟩).2.matched.length
    ∧ (colorPaths [(chars ("US"), ⟨chars ("#111"), chars ("USA")⟩),
          (chars ("CA"), ⟨chars ("#222"), chars ("Canada")⟩)] (chars ("#ececec"))
          [⟨some (chars ("US")), none, none, none⟩] ⟨0, 0, []⟩).2.matched.Nodup
    ∧ (color_map_walk [(chars ("US"), ⟨chars ("#111"), chars ("USA")⟩),
          (chars ("CA"), ⟨chars ("#222"), chars ("Canada")⟩)] (chars ("#ececec"))
          [⟨some (chars ("US")), none, none, none⟩]).2.unmatched_codes.toFinset =
        (([(chars ("US"), ⟨chars ("#111"), chars ("USA")⟩),
          (chars ("CA"), ⟨chars ("#222"), chars ("Canada")⟩)] : Catalog).map Prod.fst).toFinset \
          (colorPaths [(chars ("US"), ⟨chars ("#111"), chars ("USA")⟩),
            (chars ("CA"), ⟨chars ("#222"), chars ("Canada")⟩)] (chars ("#ececec"))
            [⟨some (chars ("US")), none, none, none⟩] ⟨0, 0, []⟩).2.matched.toFinset
    ∧ List.Sorted lexLeP (color_map_walk [(chars ("US"), ⟨chars ("#111"), chars ("USA")⟩),
          (chars ("CA"), ⟨chars ("#222"), chars ("Canada")⟩)] (chars ("#ececec"))
          [⟨some (chars ("US")), none, none, none⟩]).2.unmatched_codes
    ∧ (color_map_walk [(chars ("US"), ⟨chars ("#111"), chars ("USA")⟩),
          (chars ("CA"), ⟨chars ("#222"), chars ("Canada")⟩)] (chars ("#ececec"))
          [⟨some (chars ("US")), none, none, none⟩]).2.unmatched_codes.Nodup :=
  c3_stats_consistency
    [(chars ("US"), ⟨chars ("#111"), chars ("USA")⟩),
     (chars ("CA"), ⟨chars ("#222"), chars ("Canada")⟩)]
    (chars ("#ececec")) [⟨some (chars ("US")), none, none, none⟩] (by decide)


/-- The legend color map never holds a color twice. -/
theorem color_labels_aux_keys_nodup :
    ∀ (data : Catalog) (acc : List (Str × Str)),
      (acc.map Prod.fst).Nodup → ((color_labels_aux acc data).map Prod.fst).Nodup
  | [], _, h => h
  | kv :: rest, acc, h => by
    simp only [color_labels_aux]
    apply color_labels_aux_keys_nodup rest
    split
    · exact h
    · rename_i hmem
      rw [List.map_append]
      refine List.nodup_append.mpr ⟨h, List.nodup_singleton _, ?_⟩
      intro a ha hb
      simp only [List.map_cons, List.map_nil, List.mem_singleton] at hb
      exact hmem (hb ▸ ha)

/-- The legend color map covers exactly the accumulated and catalog colors. -/
theorem color_labels_aux_keys_mem :
    ∀ (data : Catalog) (acc : List (Str × Str)) (c : Str),
      (c ∈ (color_labels_aux acc data).map Prod.fst ↔
        c ∈ acc.map Prod.fst ∨ c ∈ data.map (fun kv => kv.2.color))
  | [], acc, c => by simp [color_labels_aux]
  | kv :: rest, acc, c => by
    simp only [color_labels_aux]
    rw [color_labels_aux_keys_mem rest]
    split
    · rename_i hmem
      simp only [List.map_cons, List.mem_cons]
      constructor
      · rintro (h | h)
        · exact Or.inl h
        · exact Or.inr (Or.inr h)
      · rintro (h | rfl | h)
        · exact Or.inl h
        · exact Or.inl hmem
        · exact Or.inr h
    · rename_i hmem
      simp only [List.map_append, List.mem_append, List.map_cons, List.map_nil,
        List.mem_cons, List.not_mem_nil, or_false]
      constructor
      · rintro ((h | rfl) | h)
        · exact Or.inl h
        · exact Or.inr (Or.inl rfl)
        · exact Or.inr (Or.inr h)
      · rintro (h | rfl | h)
        · exact Or.inl (Or.inl h)
        · exact Or.inl (Or.inr rfl)
        · exact Or.inr h

/-- Every legend color map entry carries the label of the first catalog entry
with that color (unless it was already in the accumulator). -/
theorem color_labels_aux_first :
    ∀ (data : Catalog) (acc : List (Str × Str)) (row : Str × Str),
      row ∈ color_labels_aux acc data →
      row ∈ acc ∨ (row.1 ∉ acc.map Prod.fst ∧ firstLabel data row.1 = some row.2)
  | [], _, row, h => Or.inl h
  | kv :: rest, acc, row, h => by
    simp only [color_labels_aux] at h
    rcases color_labels_aux_first rest _ row h with h2 | ⟨h2, h3⟩
    · revert h2
      split
      · exact fun h2 => Or.inl h2
      · rename_i hmem
        intro h2
        rcases List.mem_append.mp h2 with h2 | h2
        · exact Or.inl h2
        · rw [List.mem_singleton] at h2
          subst h2
          refine Or.inr ⟨hmem, ?_⟩
          unfold firstLabel
          rw [List.find?_cons_of_pos _ (by simp)]
          rfl
    · revert h2
      split
      · rename_i hmem
        intro h2
        refine Or.inr ⟨h2, ?_⟩
        unfold firstLabel
        unfold firstLabel at h3
        have hne : ¬ kv.2.color = row.1 := by
          intro he
          exact h2 (he ▸ hmem)
        rw [List.find?_cons_of_neg _ (by simpa using hne)]
        exact h3
      · rename_i hmem
        intro h2
        have hne : ¬ kv.2.color = row.1 := by
          intro he
          refine h2 ?_
          rw [List.map_append]
          simp [he]
        refine Or.inr ⟨fun hm => h2 (by rw [List.map_append]; simp [hm]), ?_⟩
        unfold firstLabel
        unfold firstLabel at h3
        rw [List.find?_cons_of_neg _ (by simpa using hne)]
        exact h3

/-- Claim C7: the legend has exactly one row per distinct catalog color
(duplicate-free rows covering exactly the catalog's colors, with row count the
number of distinct colors), each row carries the label of the first catalog
entry (in insertion order) with that color, rows are emitted in ascending
label order, and the spec's two-codes-one-color catalog yields exactly one
row. -/
theorem c7_legend_rows (data : Catalog) :
    ((legend_rows data).map Prod.fst).Nodup
    ∧ (∀ c, c ∈ (legend_rows data).map Prod.fst ↔ c ∈ data.map (fun kv => kv.2.color))
    ∧ (legend_rows data).length = (data.map (fun kv => kv.2.color)).toFinset.card
    ∧ (∀ row ∈ legend_rows data, firstLabel data row.1 = some row.2)
    ∧ List.Sorted labelLeP (legend_rows data)
    ∧ (legend_rows
        [(chars ("US"), ⟨chars ("#111"), chars ("USA")⟩),
         (chars ("CA"), ⟨chars ("#111"), chars ("Canada")⟩)]).length = 1 := by
  haveI : IsTotal (Str × Str) labelLeP := ⟨fun a b => lexLe_total a.2 b.2⟩
  haveI : IsTrans (Str × Str) labelLeP := ⟨fun _ _ _ => lexLe_trans⟩
  have hperm : List.Perm ((legend_rows data).map Prod.fst)
      ((color_labels data).map Prod.fst) :=
    (List.perm_insertionSort labelLeP (color_labels data)).map Prod.fst
  have hnodup : ((legend_rows data).map Prod.fst).Nodup :=
    hperm.nodup_iff.mpr (color_labels_aux_keys_nodup data [] List.nodup_nil)
  have hmem : ∀ c, c ∈ (legend_rows data).map Prod.fst ↔
      c ∈ data.map (fun kv => kv.2.color) := by
    intro c
    rw [hperm.mem_iff]
    unfold color_labels
    rw [color_labels_aux_keys_mem data [] c]
    simp only [List.map_nil, List.not_mem_nil, false_or]
  refine ⟨hnodup, hmem, ?_, ?_, ?_, by decide⟩
  · have h1 : (legend_rows data).length = ((legend_rows data).map Prod.fst).length :=
      (List.length_map _ _).symm
    have h2 : ((legend_rows data).map Prod.fst).toFinset =
        (data.map (fun kv => kv.2.color)).toFinset := by
      ext a
      rw [List.mem_toFinset, List.mem_toFinset]
      exact hmem a
    rw [h1, ← List.toFinset_card_of_nodup hnodup, h2]
  · intro row hrow
    have hrow2 : row ∈ color_labels_aux [] data := by
      rw [← List.mem_insertionSort labelLeP]
      exact hrow
    rcases color_labels_aux_first data [] row hrow2 with h | ⟨-, h⟩
    · cases h
    · exact h
  · exact List.sorted_insertionSort labelLeP (color_labels data)


/-- Claim C8, counterexample: with no viewBox and width "80px0",
`get_viewbox` removes both characters of every "px" occurrence and returns
(0, 0, 800, 600), while the claimed behavior — stripping only a "px"
*suffix* — would leave the non-numeric "80px0" and fail the float
conversion. -/
theorem c8_counterexample :
    get_viewbox ⟨none, some (chars ("80px0")), none⟩ = some (0, 0, 800, 600)
    ∧ get_viewbox_spec ⟨none, some (chars ("80px0")), none⟩ = none := by
  constructor
  · have h1 : decScan (replacePx (chars ("80px0"))) = some ⟨false, 800, 0, 0⟩ := by decide
    have h2 : decScan (replacePx (chars ("600"))) = some ⟨false, 600, 0, 0⟩ := by decide
    simp [get_viewbox, parseDec, h1, h2, ratOfScan]
  · have h1 : decScan (stripPxSuffix (chars ("80px0"))) = (none : Option DecScan) := by
      decide
    simp [get_viewbox_spec, parseDec, h1]

/-- Claim C8 (amended): a present, truthy viewBox attribute splitting into
exactly four whitespace-separated parseable numbers yields those four
numbers; otherwise the result is (0, 0, width, height) from the width/height
attributes with *every* occurrence of "px" removed (not only a trailing
suffix), each attribute defaulting to "800"/"600" when absent. -/
theorem c8_get_viewbox (root : RootElem) :
    (∀ s a b c d qa qb qc qd, root.viewBox = some s → splitWS s = [a, b, c, d] →
       parseDec a = some qa → parseDec b = some qb → parseDec c = some qc →
       parseDec d = some qd → get_viewbox root = some (qa, qb, qc, qd))
    ∧ ((root.viewBox = none ∨ ∀ s, root.viewBox = some s → (splitWS s).length ≠ 4) →
       get_viewbox root =
         match parseDec (replacePx (root.width.getD (chars ("800")))),
             parseDec (replacePx (root.height.getD (chars ("600")))) with
         | some w, some h => some (0, 0, w, h)
         | _, _ => none) := by
  constructor
  · intro s a b c d qa qb qc qd hvb hsplit ha hb hc hd
    have hs : s ≠ [] := by
      intro h0
      subst h0
      simp [splitWS, splitWSAux] at hsplit
    simp only [get_viewbox, hvb]
    rw [if_pos hs, hsplit]
    rw [if_pos (by simp)]
    simp only [List.map_cons, List.map_nil, ha, hb, hc, hd]
  · intro h
    cases hvb : root.viewBox with
    | none => simp only [get_viewbox, hvb]
    | some s =>
      rcases h with h | h
      · rw [hvb] at h
        cases h
      · have hlen := h s hvb
        simp only [get_viewbox, hvb]
        by_cases hs : s ≠ []
        · rw [if_pos hs, if_neg hlen]
        · rw [if_neg hs]

/-- Claim C8, witness: the amended theorem applied to a root whose viewBox
is "0 0 800 600". -/
theorem c8_witness :
    get_viewbox ⟨some (chars ("0 0 800 600")), none, none⟩ =
      some (ratOfScan ⟨false, 0, 0, 0⟩, ratOfScan ⟨false, 0, 0, 0⟩,
        ratOfScan ⟨false, 800, 0, 0⟩, ratOfScan ⟨false, 600, 0, 0⟩) :=
  (c8_get_viewbox ⟨some (chars ("0 0 800 600")), none, none⟩).1
    (chars ("0 0 800 600")) (chars ("0")) (chars ("0")) (chars ("800")) (chars ("600"))
    (ratOfScan ⟨false, 0, 0, 0⟩) (ratOfScan ⟨false, 0, 0, 0⟩)
    (ratOfScan ⟨false, 800, 0, 0⟩) (ratOfScan ⟨false, 600, 0, 0⟩)
    rfl (by decide) rfl rfl rfl rfl

/-- Claim C9: when the input document path is missing, the data file path is
missing, or the data file extension is unsupported, `color_map` raises before
the output write (which happens only after the full walk succeeds), so the
run ends in an error and no output document exists. -/
theorem c9_fatal_no_write (inp : RunInput)
    (h : inp.input_exists = false ∨ inp.data_exists = false ∨
      (inp.data_ext ≠ jsonExt ∧ inp.data_ext ≠ csvExt)) :
    ∃ msg, color_map inp = Except.error msg := by
  unfold color_map
  by_cases hin : inp.input_exists = false
  · rw [if_pos hin]
    exact ⟨_, rfl⟩
  · rw [if_neg hin]
    by_cases hdata : inp.data_exists = false
    · rw [if_pos hdata]
      exact ⟨_, rfl⟩
    · rw [if_neg hdata]
      rcases h with h | h | ⟨h1, h2⟩
      · exact absurd h hin
      · exact absurd h hdata
      · unfold parse_data
        rw [if_neg h1, if_neg h2]
        exact ⟨_, rfl⟩

/-- Claim C9, witness: a run whose data file has the unsupported extension
".txt" errors out. -/
theorem c9_witness :
    ∃ msg, color_map ⟨true, true, chars (".txt"), [], [], [], chars ("#ececec")⟩ =
      Except.error msg :=
  c9_fatal_no_write ⟨true, true, chars (".txt"), [], [], [], chars ("#ececec")⟩
    (Or.inr (Or.inr ⟨by decide, by decide⟩))

/-- Keys after a dict insert. -/
theorem mem_keys_dictInsert {α : Type} (k : Str) (v : α) (l : List (Str × α)) (c : Str) :
    c ∈ (dictInsert k v l).map Prod.fst ↔ c = k ∨ c ∈ l.map Prod.fst := by
  induction l with
  | nil =>
    simp only [dictInsert, List.map_cons, List.map_nil, List.mem_singleton,
      List.not_mem_nil, or_false]
  | cons kv rest ih =>
    simp only [dictInsert]
    by_cases he : kv.1 = k
    · rw [if_pos he]
      simp only [List.map_cons, List.mem_cons, ← he]
      tauto
    · rw [if_neg he]
      simp only [List.map_cons, List.mem_cons, ih]
      tauto

/-- The JSON parse loop's keys: exactly the accumulated keys plus the codes
of entries whose value is a string or dict. -/
theorem parse_data_json_loop (entries : List (Str × JValue)) (acc : Catalog) (code : Str) :
    code ∈ (entries.foldl
        (fun result e =>
          match e.2 with
          | .str s => dictInsert e.1 ⟨s, e.1⟩ result
          | .obj fields =>
            dictInsert e.1
              ⟨jToStr ((alookup colorKey fields).getD (.str defaultHex)),
               jToStr ((alookup labelKey fields).getD (.str e.1))⟩
              result
          | _ => result) acc).map Prod.fst ↔
      code ∈ acc.map Prod.fst ∨ ∃ v, (code, v) ∈ entries ∧ strOrDict v = true := by
  induction entries generalizing acc with
  | nil =>
    simp only [List.foldl_nil, List.not_mem_nil, false_and, exists_false, or_false]
  | cons e rest ih =>
    rw [List.foldl_cons, ih]
    have hsplit : (∃ v, (code, v) ∈ e :: rest ∧ strOrDict v = true) ↔
        ((code = e.1 ∧ strOrDict e.2 = true) ∨
          ∃ v, (code, v) ∈ rest ∧ strOrDict v = true) := by
      constructor
      · rintro ⟨v, hv1, hv2⟩
        rcases List.mem_cons.mp hv1 with h2 | h2
        · left
          refine ⟨congrArg Prod.fst h2, ?_⟩
          rw [← congrArg Prod.snd h2]
          exact hv2
        · exact Or.inr ⟨v, h2, hv2⟩
      · rintro (⟨rfl, h2⟩ | ⟨v, h1, h2⟩)
        · refine ⟨e.2, ?_, h2⟩
          rw [show ((e.1, e.2) : Str × JValue) = e from rfl]
          exact List.mem_cons_self e rest
        · exact ⟨v, List.mem_cons_of_mem _ h1, h2⟩
    rw [hsplit]
    cases hv : e.2 with
    | str s =>
      simp only [hv, strOrDict, and_true]
      rw [mem_keys_dictInsert]
      tauto
    | obj fields =>
      simp only [hv, strOrDict, and_true]
      rw [mem_keys_dictInsert]
      tauto
    | num n =>
      simp only [hv, strOrDict, Bool.false_eq_true, and_false, false_or]
    | boolean b =>
      simp only [hv, strOrDict, Bool.false_eq_true, and_false, false_or]
    | arr elems =>
      simp only [hv, strOrDict, Bool.false_eq_true, and_false, false_or]
    | null =>
      simp only [hv, strOrDict, Bool.false_eq_true, and_false, false_or]

/-- Claim C10: parsing a JSON data file never raises for entries whose value
is neither a string nor a dict (the branch returns normally), and such
entries are silently omitted: a code appears among the catalog keys iff some
entry with that code has a string or dict value. -/
theorem c10_json_skips_nonstring (entries : List (Str × JValue)) (csvContent : List CsvRow)
    (code : Str) :
    parse_data jsonExt entries csvContent = .ok (parse_data_json entries)
    ∧ (code ∈ (parse_data_json entries).map Prod.fst ↔
        ∃ v, (code, v) ∈ entries ∧ strOrDict v = true) := by
  constructor
  · unfold parse_data
    rw [if_pos rfl]
  · unfold parse_data_json
    rw [parse_data_json_loop entries [] code]
    simp only [List.map_nil, List.not_mem_nil, false_or]

end SvgMap
